import Mathlib

/-!
Verification development for `scripts/compress_images.py`.

The script reads a batch of base64-encoded images plus an aggregate byte
ceiling, and either passes the batch through unchanged (when the total
already fits) or recompresses each oversized image through a fixed
(scale, quality) ladder with a forced fallback.

Shallow embedding notes:
* The image codec (PIL `Image.open`, `Image.resize`, `Image.convert`,
  JPEG `save`) is an external collaborator; it is modelled as an abstract
  `Codec` record of pure functions.  Decoded images are records carrying
  width, height, PIL mode string and an opaque pixel-content token.
* Python float expressions `int(max_total * 0.9 / len(images))` and
  `int(per_image_target_b64 * 3 / 4)` are modelled with exact rational
  arithmetic truncated toward zero (`Int.tdiv`), matching Python `int()`
  on the exact value.
* `base64.b64encode` is implemented concretely (standard RFC 4648
  alphabet, '=' padding); `base64.b64decode` and the codec are abstract
  `Option`-valued functions, `none` marking a raised Python exception.
* Errors that abort the script (ZeroDivisionError, decode failures) are
  modelled as `Except.error`.
-/

namespace CompressImages

/-- A decoded PIL image: dimensions, PIL mode string (e.g. "RGB", "RGBA",
"P"), and an opaque token standing for the pixel data. -/
structure PILImage where
  width : Nat
  height : Nat
  mode : String
  content : Nat
deriving DecidableEq

/-- The external image/encoding capabilities used by the script:
`base64.b64decode`, PIL `Image.open`, JPEG `save` (with `optimize=True`,
returning the encoded bytes), and the pixel-content transformations of
`Image.resize` (LANCZOS) and `Image.convert('RGB')`. -/
structure Codec where
  b64decodeFn : List Char → Option (List Nat)
  imageOpen : List Nat → Option PILImage
  encode : PILImage → Nat → List Nat
  resizeContent : Nat → Nat → Nat → Nat
  convertContent : String → Nat → Nat

/-- Model of `img.resize((w, h), Image.LANCZOS)`: new dimensions, same mode,
transformed pixel content. -/
def Codec.resize (c : Codec) (img : PILImage) (w h : Nat) : PILImage :=
  ⟨w, h, img.mode, c.resizeContent img.content w h⟩

/-- Model of `img.convert('RGB')`: same dimensions, mode becomes "RGB". -/
def Codec.convertRGB (c : Codec) (img : PILImage) : PILImage :=
  ⟨img.width, img.height, "RGB", c.convertContent img.mode img.content⟩

/-- The base64 alphabet of `base64.b64encode`. -/
def b64chars : List Char :=
  "ABCDEFGHIJKLMNOPQRSTUVWXYZabcdefghijklmnopqrstuvwxyz0123456789+/".toList

/-- Character of the base64 alphabet at a 6-bit index. -/
def b64char (i : Nat) : Char := b64chars.getD i 'A'

/-- Model of `base64.b64encode` (as ASCII characters), three input bytes per four
output characters, '='-padded. -/
def b64encode : List Nat → List Char
  | [] => []
  | [b1] => [b64char (b1 / 4), b64char (b1 % 4 * 16), '=', '=']
  | [b1, b2] => [b64char (b1 / 4), b64char (b1 % 4 * 16 + b2 / 16),
                 b64char (b2 % 16 * 4), '=']
  | b1 :: b2 :: b3 :: rest =>
      b64char (b1 / 4) :: b64char (b1 % 4 * 16 + b2 / 16) ::
      b64char (b2 % 16 * 4 + b3 / 64) :: b64char (b3 % 64) :: b64encode rest

/-- The scale factors `[1.0, 0.75, 0.5, 0.35, 0.25]` as exact fractions
(numerator, denominator). -/
def scales : List (Nat × Nat) := [(1, 1), (3, 4), (1, 2), (35, 100), (1, 4)]

/-- The quality levels `[85, 60, 40, 25]`. -/
def qualities : List Nat := [85, 60, 40, 25]

/-- Model of `int(d * scale)` for a dimension `d`: floor of the exact product. -/
def scaledDim (d : Nat) (s : Nat × Nat) : Nat := d * s.1 / s.2

/-- Model of `img.resize((new_w, new_h), Image.LANCZOS) if scale < 1.0 else img`. -/
def resizedFor (c : Codec) (img : PILImage) (s : Nat × Nat) : PILImage :=
  if s.1 < s.2 then
    c.resize img (scaledDim img.width s) (scaledDim img.height s)
  else img

/-- The inner quality loop of `compress_image`: encode `resized` at each
quality in turn, returning the first result whose length fits the target. -/
def tryQualities (c : Codec) (resized : PILImage) (target : Int) :
    List Nat → Option (List Nat)
  | [] => none
  | q :: qs =>
      let result := c.encode resized q
      if (result.length : Int) ≤ target then some result
      else tryQualities c resized target qs

/-- The outer scale loop of `compress_image`: skip a scale when a scaled
dimension drops below 100, otherwise sweep the qualities at that scale. -/
def tryScales (c : Codec) (img : PILImage) (target : Int) :
    List (Nat × Nat) → Option (List Nat)
  | [] => none
  | s :: ss =>
      if scaledDim img.width s < 100 ∨ scaledDim img.height s < 100 then
        tryScales c img target ss
      else
        match tryQualities c (resizedFor c img s) target qualities with
        | some r => some r
        | none => tryScales c img target ss

/-- The RGBA/P normalisation at the top of `compress_image`: convert to RGB
and force `media_type = 'image/jpeg'` exactly when `img.mode` is `'RGBA'`
or `'P'`. -/
def normalize (c : Codec) (img : PILImage) (media_type : String) :
    PILImage × String :=
  if img.mode = "RGBA" ∨ img.mode = "P" then (c.convertRGB img, "image/jpeg")
  else (img, media_type)

/-- The forced-fallback resize: `img.resize((400, int(400 * h / w)))`. -/
def fallbackImage (c : Codec) (img : PILImage) : PILImage :=
  c.resize img 400 (400 * img.height / img.width)

/-- The forced-fallback encoding: fallback resize, quality 20. -/
def fallbackEncode (c : Codec) (img : PILImage) : List Nat :=
  c.encode (fallbackImage c img) 20

/-- Model of `compress_image(img_bytes, media_type, target_bytes)`; `none` models a
decode failure raised by `Image.open`.  Both return statements of the
source hand back base64 text with the literal media type `'image/jpeg'`. -/
def compress_image (c : Codec) (img_bytes : List Nat) (media_type : String)
    (target_bytes : Int) : Option (List Char × String) :=
  match c.imageOpen img_bytes with
  | none => none
  | some opened =>
      let img := (normalize c opened media_type).1
      match tryScales c img target_bytes scales with
      | some result => some (b64encode result, "image/jpeg")
      | none => some (b64encode (fallbackEncode c img), "image/jpeg")

/-- One entry of the JSON batch: the base64 `data` string and its declared
`media_type`. -/
structure ImageEntry where
  data : List Char
  media_type : String
deriving DecidableEq

/-- Model of `int(max_total * 0.9 / len(images))`: truncation toward zero of the
exact value `9 * maxTotal / (10 * n)`. -/
def perImageTargetB64 (maxTotal : Int) (n : Nat) : Int :=
  Int.tdiv (maxTotal * 9) (10 * n)

/-- Model of `int(per_image_target_b64 * 3 / 4)`. -/
def perImageTargetBytes (a : Int) : Int := Int.tdiv (a * 3) 4

/-- The per-image body of the main loop: pass an image through when its
base64 length already fits the allowance, otherwise decode and recompress
it.  `Except.error` models an uncaught Python exception. -/
def processOne (c : Codec) (a t : Int) (img : ImageEntry) :
    Except String ImageEntry :=
  if (img.data.length : Int) ≤ a then .ok img
  else
    match c.b64decodeFn img.data with
    | none => .error "binascii.Error"
    | some raw =>
        match compress_image c raw img.media_type t with
        | none => .error "PIL.UnidentifiedImageError"
        | some r => .ok ⟨r.1, r.2⟩

/-- The main loop over the batch, in input order, aborting at the first
per-image error. -/
def processImages (c : Codec) (a t : Int) :
    List ImageEntry → Except String (List ImageEntry)
  | [] => .ok []
  | img :: rest =>
      match processOne c a t img with
      | .error e => .error e
      | .ok r =>
          match processImages c a t rest with
          | .error e => .error e
          | .ok rs => .ok (r :: rs)

/-- Model of `sum(len(img['data']) for img in images)`: total base64 length. -/
def totalSize (images : List ImageEntry) : Nat :=
  (images.map (fun i => i.data.length)).sum

/-- Model of `main()`: pass the batch through when `total <= max_total`; otherwise
compute the uniform allowance and process every image.  The division by
`len(images)` raises `ZeroDivisionError` when the batch is empty and
over budget. -/
def main (c : Codec) (images : List ImageEntry) (maxTotal : Int) :
    Except String (List ImageEntry) :=
  if (totalSize images : Int) ≤ maxTotal then .ok images
  else if images.length = 0 then .error "ZeroDivisionError"
  else
    processImages c (perImageTargetB64 maxTotal images.length)
      (perImageTargetBytes (perImageTargetB64 maxTotal images.length)) images

/-! ### Specification-side ladder description

The following definitions restate the ladder in the spec's vocabulary — an
ordered candidate list and a greedy first-fit — to be compared with the
source loops `tryScales`/`tryQualities` above. -/

/-- A scale is retained when neither scaled dimension drops below 100. -/
def retainPred (w h : Nat) (s : Nat × Nat) : Bool :=
  !(decide (scaledDim w s < 100) || decide (scaledDim h s < 100))

/-- The retained scales, in ladder order. -/
def retainedScales (w h : Nat) : List (Nat × Nat) :=
  scales.filter (retainPred w h)

/-- All (scale, quality) pairs for a list of scales, qualities swept fully
at each scale before the next scale. -/
def ladderCands (ss : List (Nat × Nat)) : List ((Nat × Nat) × Nat) :=
  ss.flatMap (fun s => qualities.map (fun q => (s, q)))

/-- The ordered candidate list for an image of the given dimensions. -/
def candidates (w h : Nat) : List ((Nat × Nat) × Nat) :=
  ladderCands (retainedScales w h)

/-- The encoded bytes of one (scale, quality) candidate. -/
def candEncode (c : Codec) (img : PILImage) (sq : (Nat × Nat) × Nat) :
    List Nat :=
  c.encode (resizedFor c img sq.1) sq.2

/-- Greedy first-fit over an ordered candidate list. -/
def firstFit (c : Codec) (img : PILImage) (target : Int) :
    List ((Nat × Nat) × Nat) → Option (List Nat)
  | [] => none
  | sq :: rest =>
      if ((candEncode c img sq).length : Int) ≤ target then
        some (candEncode c img sq)
      else firstFit c img target rest

/-- Number of candidates visited (one JPEG encode each) by the first-fit
search over an ordered candidate list. -/
def ladderAttemptCount (c : Codec) (img : PILImage) (target : Int) :
    List ((Nat × Nat) × Nat) → Nat
  | [] => 0
  | sq :: rest =>
      if ((candEncode c img sq).length : Int) ≤ target then 1
      else 1 + ladderAttemptCount c img target rest

/-- Total number of JPEG encode operations `compress_image` performs for a
decoded, normalised image: the visited ladder candidates plus the one
fallback encode when no candidate fits. -/
def encodeAttempts (c : Codec) (img : PILImage) (target : Int) : Nat :=
  ladderAttemptCount c img target (candidates img.width img.height) +
    (match firstFit c img target (candidates img.width img.height) with
     | some _ => 0
     | none => 1)

/-- PIL modes carrying an alpha channel. -/
def alphaModes : List String := ["RGBA", "LA", "PA", "RGBa", "La"]

/-- Does a PIL mode string carry an alpha channel? -/
def hasAlpha (mode : String) : Bool := mode ∈ alphaModes

/-- PIL modes the JPEG encoder accepts directly. -/
def jpegCompatibleModes : List String := ["1", "L", "RGB", "RGBX", "CMYK", "YCbCr"]

/-! ### Concrete codec instances, used to evaluate the model on closed
inputs -/

/-- A concrete codec: every base64 string decodes to 15 raw bytes, every
byte string opens as a 500×400 RGB image, and every JPEG encode produces
30 zero bytes. -/
def testCodec : Codec :=
  ⟨fun _ => some (List.replicate 15 0),
   fun _ => some ⟨500, 400, "RGB", 0⟩,
   fun _ _ => List.replicate 30 0,
   fun _ _ _ => 0,
   fun _ _ => 0⟩

/-- A concrete codec whose images decode small (50×60) — below the 100px
ladder floor. -/
def tinyCodec : Codec :=
  ⟨fun _ => some (List.replicate 15 0),
   fun _ => some ⟨50, 60, "RGB", 0⟩,
   fun _ _ => List.replicate 30 0,
   fun _ _ _ => 0,
   fun _ _ => 0⟩

/-- A concrete codec whose images decode as 500×400 RGBA. -/
def rgbaCodec : Codec :=
  ⟨fun _ => some (List.replicate 15 0),
   fun _ => some ⟨500, 400, "RGBA", 0⟩,
   fun _ _ => List.replicate 30 0,
   fun _ _ _ => 0,
   fun _ _ => 0⟩

/-- A concrete one-image batch whose total (20) exceeds the ceiling 10. -/
def ceBatch : List ImageEntry := [⟨List.replicate 20 'x', "image/png"⟩]

/-- The batch `main testCodec ceBatch 10` returns: the fallback encoding
of the single image. -/
def ceOutBatch : List ImageEntry :=
  [⟨b64encode (List.replicate 30 0), "image/jpeg"⟩]

/-! ### Helper lemmas: the source loops compute the greedy first-fit -/

theorem firstFit_append (c : Codec) (img : PILImage) (target : Int)
    (l1 l2 : List ((Nat × Nat) × Nat)) :
    firstFit c img target (l1 ++ l2) =
      (match firstFit c img target l1 with
       | some r => some r
       | none => firstFit c img target l2) := by
  induction l1 with
  | nil => simp [firstFit]
  | cons sq rest ih =>
      simp only [List.cons_append, firstFit]
      by_cases h : ((candEncode c img sq).length : Int) ≤ target <;> simp [h, ih]

theorem tryQualities_eq_firstFit (c : Codec) (img : PILImage) (target : Int)
    (s : Nat × Nat) (qs : List Nat) :
    tryQualities c (resizedFor c img s) target qs =
      firstFit c img target (qs.map (fun q => (s, q))) := by
  induction qs with
  | nil => rfl
  | cons q qs ih =>
      simp only [List.map_cons, tryQualities, firstFit, candEncode]
      by_cases h : ((c.encode (resizedFor c img s) q).length : Int) ≤ target <;>
        simp [h, ih]

theorem tryScales_eq_firstFit (c : Codec) (img : PILImage) (target : Int)
    (ss : List (Nat × Nat)) :
    tryScales c img target ss =
      firstFit c img target
        (ladderCands (ss.filter (retainPred img.width img.height))) := by
  induction ss with
  | nil => rfl
  | cons s ss ih =>
      by_cases h : scaledDim img.width s < 100 ∨ scaledDim img.height s < 100
      · have hp : retainPred img.width img.height s = false := by
          simp only [retainPred, Bool.not_eq_false', Bool.or_eq_true,
            decide_eq_true_eq]
          omega
        simp [tryScales, h, List.filter_cons, hp, ih]
      · have hp : retainPred img.width img.height s = true := by
          simp only [retainPred, Bool.not_eq_true', Bool.or_eq_false_iff,
            decide_eq_false_iff_not]
          omega
        simp only [tryScales, if_neg h, List.filter_cons, hp, if_pos]
        rw [show (ladderCands (s :: List.filter (retainPred img.width img.height) ss)) =
              qualities.map (fun q => (s, q)) ++
                ladderCands (List.filter (retainPred img.width img.height) ss) by
            simp [ladderCands]]
        rw [firstFit_append, ← tryQualities_eq_firstFit, ← ih]

/-- The function `normalize` never changes the image dimensions. -/
theorem normalize_dims (c : Codec) (img : PILImage) (mt : String) :
    (normalize c img mt).1.width = img.width ∧
      (normalize c img mt).1.height = img.height := by
  unfold normalize
  by_cases h : img.mode = "RGBA" ∨ img.mode = "P" <;> simp [h, Codec.convertRGB]

/-- Characterisation of `compress_image` for a decodable image: it is the
greedy first-fit over the ordered candidate list, with the forced fallback
when no candidate fits. -/
theorem compress_image_eq (c : Codec) (raw : List Nat) (mt : String)
    (target : Int) (opened : PILImage) (h : c.imageOpen raw = some opened) :
    compress_image c raw mt target =
      some (match firstFit c ((normalize c opened mt).1) target
                (candidates ((normalize c opened mt).1).width
                  ((normalize c opened mt).1).height) with
            | some r => (b64encode r, "image/jpeg")
            | none =>
                (b64encode (fallbackEncode c ((normalize c opened mt).1)),
                 "image/jpeg")) := by
  unfold compress_image
  rw [h]
  dsimp only
  rw [tryScales_eq_firstFit]
  unfold candidates retainedScales
  cases firstFit c ((normalize c opened mt).1) target
      (ladderCands (List.filter
        (retainPred ((normalize c opened mt).1).width
          ((normalize c opened mt).1).height) scales)) <;> rfl

/-- Once the image decodes, `compress_image` always returns a result, and
its media type is the literal `'image/jpeg'`. -/
theorem compress_image_isSome (c : Codec) (raw : List Nat) (mt : String)
    (target : Int) (opened : PILImage) (h : c.imageOpen raw = some opened) :
    ∃ res, compress_image c raw mt target = some res ∧ res.2 = "image/jpeg" := by
  rw [compress_image_eq c raw mt target opened h]
  cases firstFit c ((normalize c opened mt).1) target
      (candidates ((normalize c opened mt).1).width
        ((normalize c opened mt).1).height) <;>
    exact ⟨_, rfl, rfl⟩

theorem ladderAttemptCount_le (c : Codec) (img : PILImage) (target : Int) :
    ∀ l, ladderAttemptCount c img target l ≤ l.length := by
  intro l
  induction l with
  | nil => simp [ladderAttemptCount]
  | cons sq rest ih =>
      unfold ladderAttemptCount
      by_cases h : ((candEncode c img sq).length : Int) ≤ target <;>
        simp [h, List.length_cons]
      omega

theorem ladderCands_length (ss : List (Nat × Nat)) :
    (ladderCands ss).length = 4 * ss.length := by
  induction ss with
  | nil => rfl
  | cons s ss ih => simp [ladderCands, qualities] at ih ⊢; omega

theorem candidates_length_le (w h : Nat) : (candidates w h).length ≤ 20 := by
  have h1 : (retainedScales w h).length ≤ scales.length :=
    List.length_filter_le _ _
  have h2 : scales.length = 5 := rfl
  rw [candidates, ladderCands_length]
  omega

/-- The per-image loop body, read back pointwise from a successful run. -/
theorem processImages_spec (c : Codec) (a t : Int) (l : List ImageEntry) :
    ∀ out, processImages c a t l = .ok out →
      out.length = l.length ∧
        ∀ i (hl : i < l.length) (ho : i < out.length),
          processOne c a t (l.get ⟨i, hl⟩) = .ok (out.get ⟨i, ho⟩) := by
  induction l with
  | nil =>
      intro out h
      simp only [processImages] at h
      cases h
      simp
  | cons img rest ih =>
      intro out h
      unfold processImages at h
      cases h1 : processOne c a t img with
      | error e => rw [h1] at h; exact absurd h (by simp)
      | ok r =>
          rw [h1] at h
          cases h2 : processImages c a t rest with
          | error e => rw [h2] at h; exact absurd h (by simp)
          | ok rs =>
              rw [h2] at h
              obtain ⟨hlen, hptr⟩ := ih rs h2
              cases h
              refine ⟨by simp [hlen], ?_⟩
              intro i hl ho
              cases i with
              | zero => exact h1
              | succ n =>
                  exact hptr n (Nat.lt_of_succ_lt_succ hl)
                    (Nat.lt_of_succ_lt_succ ho)

/-- Running `main` on an over-budget, nonempty batch runs the per-image loop with
the computed allowance and raw target. -/
theorem main_over (c : Codec) (images : List ImageEntry) (maxTotal : Int)
    (hover : ¬((totalSize images : Int) ≤ maxTotal))
    (hne : images.length ≠ 0) :
    main c images maxTotal =
      processImages c (perImageTargetB64 maxTotal images.length)
        (perImageTargetBytes (perImageTargetB64 maxTotal images.length))
        images := by
  simp [main, hover, hne]

theorem tdiv_nonpos_of_nonpos {a b : Int} (ha : a ≤ 0) (hb : 0 ≤ b) :
    Int.tdiv a b ≤ 0 := by
  have h1 : Int.tdiv a b = -(Int.tdiv (-a) b) := by
    rw [← Int.neg_tdiv, Int.neg_neg]
  rw [h1]
  have h2 : 0 ≤ Int.tdiv (-a) b :=
    Int.tdiv_nonneg (by omega) hb
  omega

/-- Every ladder scale factor is at most 1, so the scaled dimension never
exceeds the original. -/
theorem scaledDim_le_self (d : Nat) (s : Nat × Nat) (hs : s ∈ scales) :
    scaledDim d s ≤ d := by
  fin_cases hs <;> simp [scaledDim] <;> omega

/-- An image with a dimension under 100 pixels retains no ladder scale. -/
theorem retainedScales_nil (w h : Nat) (hsmall : w < 100 ∨ h < 100) :
    retainedScales w h = [] := by
  rw [retainedScales, List.filter_eq_nil_iff]
  intro s hs
  have hw := scaledDim_le_self w s hs
  have hh := scaledDim_le_self h s hs
  simp only [retainPred, Bool.not_eq_true', Bool.or_eq_false_iff,
    decide_eq_false_iff_not]
  omega

/-- An image with a dimension under 100 pixels has no ladder candidates. -/
theorem candidates_nil (w h : Nat) (hsmall : w < 100 ∨ h < 100) :
    candidates w h = [] := by
  rw [candidates, retainedScales_nil w h hsmall]
  rfl

/-- The allowance of the source is the floor of `max_total * 0.9 / N`. -/
theorem perImageTargetB64_eq_floor (maxTotal : Int) (n : Nat)
    (hpos : 0 < maxTotal) (hn : 0 < n) :
    perImageTargetB64 maxTotal n = ⌊(maxTotal : ℚ) * 0.9 / (n : ℚ)⌋ := by
  have hn' : ((n : ℚ)) ≠ 0 := by positivity
  have h1 : (maxTotal : ℚ) * 0.9 / (n : ℚ) =
      ((maxTotal * 9 : ℤ) : ℚ) / (((10 * n : ℕ) : ℤ) : ℚ) := by
    push_cast
    rw [div_eq_div_iff (by positivity) (by positivity)]
    ring_nf
  rw [perImageTargetB64, h1]
  rw [show (((10 * n : ℕ) : ℤ) : ℚ) = (((10 * n : ℕ)) : ℚ) by push_cast; ring]
  rw [Rat.floor_intCast_div_natCast]
  rw [Int.tdiv_eq_ediv (by positivity) (by positivity)]
  push_cast
  ring_nf

/-- The raw-byte target of the source is the floor of `allowance * 3 / 4`. -/
theorem perImageTargetBytes_eq_floor (a : Int) (ha : 0 ≤ a) :
    perImageTargetBytes a = ⌊(a : ℚ) * 3 / 4⌋ := by
  have h1 : (a : ℚ) * 3 / 4 = ((a * 3 : ℤ) : ℚ) / (((4 : ℕ)) : ℚ) := by
    push_cast; ring
  rw [perImageTargetBytes, h1, Rat.floor_intCast_div_natCast,
    Int.tdiv_eq_ediv (by omega) (by omega)]
  norm_num

/-- The allowance never exceeds the aggregate per-image share. -/
theorem perImageTargetB64_le_share (maxTotal : Int) (n : Nat)
    (hpos : 0 < maxTotal) :
    perImageTargetB64 maxTotal n ≤ Int.tdiv maxTotal n := by
  rcases Nat.eq_zero_or_pos n with hn | hn
  · subst hn
    simp [perImageTargetB64]
  · have hm : maxTotal = ((maxTotal.toNat : ℕ) : ℤ) := by omega
    rw [perImageTargetB64, hm]
    rw [show ((maxTotal.toNat : ℕ) : ℤ) * 9 =
          (((maxTotal.toNat * 9 : ℕ)) : ℤ) by push_cast; ring]
    rw [show ((10 : ℤ) * (n : ℤ)) = (((10 * n : ℕ)) : ℤ) by push_cast; ring]
    rw [← Int.ofNat_tdiv, ← Int.ofNat_tdiv]
    have hdiv : maxTotal.toNat * 9 / (10 * n) ≤ maxTotal.toNat / n := by
      calc maxTotal.toNat * 9 / (10 * n)
          ≤ maxTotal.toNat * 10 / (10 * n) := by
            apply Nat.div_le_div_right
            omega
        _ = maxTotal.toNat / n := by
            rw [Nat.mul_comm maxTotal.toNat 10,
              Nat.mul_div_mul_left _ _ (by omega)]
    omega

/-- A first-fit hit always satisfies the target. -/
theorem firstFit_fits (c : Codec) (img : PILImage) (target : Int) :
    ∀ l r, firstFit c img target l = some r → (r.length : Int) ≤ target := by
  intro l
  induction l with
  | nil => intro r h; exact absurd h (by simp [firstFit])
  | cons sq rest ih =>
      intro r h
      unfold firstFit at h
      by_cases hc : ((candEncode c img sq).length : Int) ≤ target
      · rw [if_pos hc] at h
        cases h
        exact hc
      · rw [if_neg hc] at h
        exact ih r h

/-! ### Claims -/

/-- C2: for every decodable image and every target, recompression tries the
(scale, quality) candidates in exactly the order of scales 1.0, 0.75, 0.5,
0.35, 0.25 with qualities 85, 60, 40, 25 fully swept at each retained
scale, skips a scale entirely when a scaled dimension would drop below
100 pixels, and returns the first candidate whose encoded byte length fits
the target (greedy first-fit). -/
theorem C2_greedy_first_fit (c : Codec) (raw : List Nat) (mt : String)
    (target : Int) (opened : PILImage) (h : c.imageOpen raw = some opened) :
    scales = [(1, 1), (3, 4), (1, 2), (35, 100), (1, 4)] ∧
    qualities = [85, 60, 40, 25] ∧
    (∀ w hgt, candidates w hgt =
      ladderCands (scales.filter (retainPred w hgt))) ∧
    compress_image c raw mt target =
      some (match firstFit c ((normalize c opened mt).1) target
                (candidates ((normalize c opened mt).1).width
                  ((normalize c opened mt).1).height) with
            | some r => (b64encode r, "image/jpeg")
            | none =>
                (b64encode (fallbackEncode c ((normalize c opened mt).1)),
                 "image/jpeg")) :=
  ⟨rfl, rfl, fun _ _ => rfl, compress_image_eq c raw mt target opened h⟩

theorem C2_greedy_first_fit_witness :
    testCodec.imageOpen (List.replicate 15 0) = some ⟨500, 400, "RGB", 0⟩ ∧
    compress_image testCodec (List.replicate 15 0) "image/png" 50 =
      some (match firstFit testCodec
              ((normalize testCodec ⟨500, 400, "RGB", 0⟩ "image/png").1) 50
              (candidates
                ((normalize testCodec ⟨500, 400, "RGB", 0⟩ "image/png").1).width
                ((normalize testCodec ⟨500, 400, "RGB", 0⟩ "image/png").1).height)
              with
            | some r => (b64encode r, "image/jpeg")
            | none =>
                (b64encode (fallbackEncode testCodec
                  ((normalize testCodec ⟨500, 400, "RGB", 0⟩ "image/png").1)),
                 "image/jpeg")) :=
  ⟨rfl, (C2_greedy_first_fit testCodec (List.replicate 15 0) "image/png" 50
    ⟨500, 400, "RGB", 0⟩ rfl).2.2.2⟩

/-- C3: for every decodable image, recompression performs at most 21 encode
attempts (at most 5 retained scales × 4 qualities, plus one fallback
encode); when no ladder candidate fits, the forced fallback — width 400,
height scaled proportionally, quality 20 — is returned unconditionally,
with no target-size check, and always yields a result. -/
theorem C3_bounded_termination (c : Codec) (raw : List Nat) (mt : String)
    (target : Int) (opened : PILImage) (h : c.imageOpen raw = some opened)
    (_hw : 0 < opened.width) :
    encodeAttempts c ((normalize c opened mt).1) target ≤ 21 ∧
    (fallbackImage c ((normalize c opened mt).1)).width = 400 ∧
    (fallbackImage c ((normalize c opened mt).1)).height =
      400 * ((normalize c opened mt).1).height /
        ((normalize c opened mt).1).width ∧
    (firstFit c ((normalize c opened mt).1) target
        (candidates ((normalize c opened mt).1).width
          ((normalize c opened mt).1).height) = none →
      compress_image c raw mt target =
        some (b64encode (fallbackEncode c ((normalize c opened mt).1)),
          "image/jpeg")) := by
  have hcount := ladderAttemptCount_le c ((normalize c opened mt).1) target
    (candidates ((normalize c opened mt).1).width
      ((normalize c opened mt).1).height)
  have hlen := candidates_length_le ((normalize c opened mt).1).width
    ((normalize c opened mt).1).height
  refine ⟨?_, rfl, rfl, ?_⟩
  · unfold encodeAttempts
    cases hff : firstFit c ((normalize c opened mt).1) target
        (candidates ((normalize c opened mt).1).width
          ((normalize c opened mt).1).height) <;> simp <;> omega
  · intro hnone
    rw [compress_image_eq c raw mt target opened h, hnone]

theorem C3_bounded_termination_witness :
    testCodec.imageOpen (List.replicate 15 0) = some ⟨500, 400, "RGB", 0⟩ ∧
    (0 : Nat) < 500 ∧
    encodeAttempts testCodec
      ((normalize testCodec ⟨500, 400, "RGB", 0⟩ "image/png").1) 6 ≤ 21 :=
  ⟨rfl, by decide,
    (C3_bounded_termination testCodec (List.replicate 15 0) "image/png" 6
      ⟨500, 400, "RGB", 0⟩ rfl (by decide)).1⟩

/-- C4: if the batch's total encoded size is at most the ceiling, the
output batch equals the input batch byte-for-byte (pass-through
short-circuit, no re-encoding). -/
theorem C4_passthrough_identity (c : Codec) (images : List ImageEntry)
    (maxTotal : Int) (h : (totalSize images : Int) ≤ maxTotal) :
    main c images maxTotal = .ok images := by
  simp [main, h]

theorem C4_passthrough_identity_witness :
    ((totalSize [(⟨['a', 'b'], "image/png"⟩ : ImageEntry)] : Int) ≤ 8000000) ∧
    main testCodec [⟨['a', 'b'], "image/png"⟩] 8000000 =
      .ok [⟨['a', 'b'], "image/png"⟩] :=
  ⟨by decide,
    C4_passthrough_identity testCodec [⟨['a', 'b'], "image/png"⟩] 8000000
      (by decide)⟩

/-- C9: an empty batch never divides by zero and passes through as an empty
output batch, for every accepted (positive) ceiling. -/
theorem C9_empty_batch (c : Codec) (maxTotal : Int) (hpos : 0 < maxTotal) :
    main c [] maxTotal = .ok [] := by
  have h : ((totalSize ([] : List ImageEntry)) : Int) ≤ maxTotal := by
    simp only [totalSize, List.map_nil, List.sum_nil, Nat.cast_zero]
    omega
  simp [main, h]

theorem C9_empty_batch_witness :
    (0 : Int) < 5 ∧ main testCodec [] 5 = .ok [] :=
  ⟨by decide, C9_empty_batch testCodec 5 (by decide)⟩

/-- C10: when a decoded image has width or height below 100 pixels, every
ladder scale is skipped (including scale 1.0), no ladder encode is
attempted, and the forced fallback is applied directly, resizing to a
fixed width of 400 (which exceeds any original width below 400). -/
theorem C10_small_image_fallback (c : Codec) (raw : List Nat) (mt : String)
    (target : Int) (opened : PILImage) (h : c.imageOpen raw = some opened)
    (hsmall : opened.width < 100 ∨ opened.height < 100) :
    candidates ((normalize c opened mt).1).width
        ((normalize c opened mt).1).height = [] ∧
    ladderAttemptCount c ((normalize c opened mt).1) target
        (candidates ((normalize c opened mt).1).width
          ((normalize c opened mt).1).height) = 0 ∧
    compress_image c raw mt target =
      some (b64encode (fallbackEncode c ((normalize c opened mt).1)),
        "image/jpeg") ∧
    (fallbackImage c ((normalize c opened mt).1)).width = 400 := by
  obtain ⟨hW, hH⟩ := normalize_dims c opened mt
  have hnil : candidates ((normalize c opened mt).1).width
      ((normalize c opened mt).1).height = [] := by
    rw [hW, hH]
    exact candidates_nil _ _ hsmall
  refine ⟨hnil, by rw [hnil]; rfl, ?_, rfl⟩
  rw [compress_image_eq c raw mt target opened h, hnil]
  rfl

theorem C10_small_image_fallback_witness :
    tinyCodec.imageOpen (List.replicate 15 0) = some ⟨50, 60, "RGB", 0⟩ ∧
    ((50 : Nat) < 100 ∨ (60 : Nat) < 100) ∧
    compress_image tinyCodec (List.replicate 15 0) "image/png" 1000000 =
      some (b64encode (fallbackEncode tinyCodec
        ((normalize tinyCodec ⟨50, 60, "RGB", 0⟩ "image/png").1)),
        "image/jpeg") :=
  ⟨rfl, by decide,
    (C10_small_image_fallback tinyCodec (List.replicate 15 0) "image/png"
      1000000 ⟨50, 60, "RGB", 0⟩ rfl (by decide)).2.2.1⟩

/-- C6: an RGBA or palette-indexed image selected for recompression is
converted to alpha-free RGB before any encode and its recompressed output
carries the media type 'image/jpeg'; images already in a JPEG-compatible
color mode pass through the normalizer unchanged with no media-type
override. -/
theorem C6_alpha_elimination (c : Codec) :
    (∀ img mt, img.mode = "RGBA" ∨ img.mode = "P" →
        (normalize c img mt).1.mode = "RGB" ∧
        (normalize c img mt).2 = "image/jpeg" ∧
        hasAlpha ((normalize c img mt).1.mode) = false) ∧
    (∀ img mt, img.mode ∈ jpegCompatibleModes →
        normalize c img mt = (img, mt)) ∧
    (∀ raw mt target res, compress_image c raw mt target = some res →
        res.2 = "image/jpeg") := by
  refine ⟨?_, ?_, ?_⟩
  · intro img mt hmode
    unfold normalize
    rw [if_pos hmode]
    exact ⟨rfl, rfl, rfl⟩
  · intro img mt hmode
    simp only [jpegCompatibleModes, List.mem_cons,
      List.not_mem_nil, or_false] at hmode
    have hcond : ¬(img.mode = "RGBA" ∨ img.mode = "P") := by
      rcases hmode with h | h | h | h | h | h <;> rw [h] <;> decide
    simp [normalize, hcond]
  · intro raw mt target res h
    unfold compress_image at h
    cases ho : c.imageOpen raw with
    | none => rw [ho] at h; exact absurd h (by simp)
    | some opened =>
        rw [ho] at h
        dsimp only at h
        cases htry : tryScales c ((normalize c opened mt).1) target scales with
        | none =>
            rw [htry] at h
            cases h
            rfl
        | some r =>
            rw [htry] at h
            cases h
            rfl

theorem C6_alpha_elimination_witness :
    ((⟨500, 400, "RGBA", 0⟩ : PILImage).mode = "RGBA" ∨
      (⟨500, 400, "RGBA", 0⟩ : PILImage).mode = "P") ∧
    (normalize rgbaCodec ⟨500, 400, "RGBA", 0⟩ "image/png").1.mode = "RGB" ∧
    (normalize rgbaCodec ⟨500, 400, "RGBA", 0⟩ "image/png").2 = "image/jpeg" ∧
    hasAlpha ((normalize rgbaCodec ⟨500, 400, "RGBA", 0⟩ "image/png").1.mode) =
      false :=
  ⟨Or.inl rfl,
    (C6_alpha_elimination rgbaCodec).1 ⟨500, 400, "RGBA", 0⟩ "image/png"
      (Or.inl rfl)⟩

/-- C7: every successful run returns as many images as it received, and the
output at index i is either the input at index i unchanged or the
compression result of the input at index i. -/
theorem C7_order_preservation (c : Codec) (images : List ImageEntry)
    (maxTotal : Int) (out : List ImageEntry)
    (h : main c images maxTotal = .ok out) :
    out.length = images.length ∧
      ∀ i (hi : i < images.length) (ho : i < out.length),
        out.get ⟨i, ho⟩ = images.get ⟨i, hi⟩ ∨
          ∃ raw res,
            c.b64decodeFn ((images.get ⟨i, hi⟩).data) = some raw ∧
            compress_image c raw ((images.get ⟨i, hi⟩).media_type)
              (perImageTargetBytes (perImageTargetB64 maxTotal images.length))
              = some res ∧
            out.get ⟨i, ho⟩ = ⟨res.1, res.2⟩ := by
  unfold main at h
  by_cases hpass : ((totalSize images : Int) ≤ maxTotal)
  · rw [if_pos hpass] at h
    cases h
    exact ⟨rfl, fun i hi ho => Or.inl rfl⟩
  · rw [if_neg hpass] at h
    by_cases hz : images.length = 0
    · rw [if_pos hz] at h
      exact absurd h (by simp)
    · rw [if_neg hz] at h
      obtain ⟨hlen, hptr⟩ := processImages_spec _ _ _ _ out h
      refine ⟨hlen, ?_⟩
      intro i hi ho
      have hone := hptr i hi ho
      unfold processOne at hone
      by_cases hfit : (((images.get ⟨i, hi⟩).data.length : Int) ≤
          perImageTargetB64 maxTotal images.length)
      · rw [if_pos hfit] at hone
        simp only [Except.ok.injEq] at hone
        exact Or.inl hone.symm
      · rw [if_neg hfit] at hone
        cases hdec : c.b64decodeFn ((images.get ⟨i, hi⟩).data) with
        | none =>
            rw [hdec] at hone
            exact absurd hone (by simp)
        | some raw =>
            rw [hdec] at hone
            dsimp only at hone
            cases hcomp : compress_image c raw
                ((images.get ⟨i, hi⟩).media_type)
                (perImageTargetBytes (perImageTargetB64 maxTotal
                  images.length)) with
            | none =>
                rw [hcomp] at hone
                exact absurd hone (by simp)
            | some r =>
                rw [hcomp] at hone
                dsimp only at hone
                simp only [Except.ok.injEq] at hone
                exact Or.inr ⟨raw, r, rfl, hcomp, hone.symm⟩

theorem C7_order_preservation_witness :
    main testCodec [⟨['a'], "image/png"⟩] 8000000 =
      .ok [⟨['a'], "image/png"⟩] ∧
    ([(⟨['a'], "image/png"⟩ : ImageEntry)]).length =
      ([(⟨['a'], "image/png"⟩ : ImageEntry)]).length :=
  ⟨rfl,
    (C7_order_preservation testCodec [⟨['a'], "image/png"⟩] 8000000
      [⟨['a'], "image/png"⟩] rfl).1⟩

/-- C5: on an over-budget batch of N ≥ 1 images with a positive ceiling,
the allowance is floor(ceiling * 0.9 / N) in base64 length units, the raw
recompression target is floor(allowance * 3 / 4), images already within
the allowance are left untouched, and the allowance never exceeds the
aggregate per-image share ceiling / N. -/
theorem C5_allowance_arithmetic (c : Codec) (images : List ImageEntry)
    (maxTotal : Int) (out : List ImageEntry) (hpos : 0 < maxTotal)
    (hne : images.length ≠ 0)
    (hover : ¬((totalSize images : Int) ≤ maxTotal))
    (h : main c images maxTotal = .ok out) :
    perImageTargetB64 maxTotal images.length =
      ⌊(maxTotal : ℚ) * 0.9 / (images.length : ℚ)⌋ ∧
    perImageTargetBytes (perImageTargetB64 maxTotal images.length) =
      ⌊((perImageTargetB64 maxTotal images.length : ℚ)) * 3 / 4⌋ ∧
    perImageTargetB64 maxTotal images.length ≤
      Int.tdiv maxTotal images.length ∧
    ∀ i (hi : i < images.length) (ho : i < out.length),
      ((images.get ⟨i, hi⟩).data.length : Int) ≤
          perImageTargetB64 maxTotal images.length →
        out.get ⟨i, ho⟩ = images.get ⟨i, hi⟩ := by
  have hapos : 0 ≤ perImageTargetB64 maxTotal images.length :=
    Int.tdiv_nonneg (by omega) (by omega)
  refine ⟨perImageTargetB64_eq_floor maxTotal images.length hpos
      (Nat.pos_of_ne_zero hne),
    perImageTargetBytes_eq_floor _ hapos,
    perImageTargetB64_le_share maxTotal images.length hpos, ?_⟩
  rw [main_over c images maxTotal hover hne] at h
  obtain ⟨hlen, hptr⟩ := processImages_spec _ _ _ _ out h
  intro i hi ho hfit
  have hone := hptr i hi ho
  unfold processOne at hone
  rw [if_pos hfit] at hone
  simp only [Except.ok.injEq] at hone
  exact hone.symm

set_option maxRecDepth 8000 in
theorem C5_allowance_arithmetic_witness :
    (0 : Int) < 90 ∧
    main testCodec
        [⟨List.replicate 100 'x', "image/png"⟩, ⟨['y'], "image/png"⟩] 90 =
      .ok [⟨b64encode (List.replicate 30 0), "image/jpeg"⟩,
        ⟨['y'], "image/png"⟩] ∧
    perImageTargetB64 90
        ([⟨List.replicate 100 'x', "image/png"⟩,
          ⟨['y'], "image/png"⟩] : List ImageEntry).length =
      ⌊(90 : ℚ) * 0.9 /
        ((([⟨List.replicate 100 'x', "image/png"⟩,
          ⟨['y'], "image/png"⟩] : List ImageEntry).length : ℚ))⌋ :=
  ⟨by decide, rfl,
    (C5_allowance_arithmetic testCodec
      [⟨List.replicate 100 'x', "image/png"⟩, ⟨['y'], "image/png"⟩] 90
      [⟨b64encode (List.replicate 30 0), "image/jpeg"⟩, ⟨['y'], "image/png"⟩]
      (by decide) (by decide) (by decide) rfl).1⟩

/-- C1 (counterexample): a one-image batch over a positive ceiling of 10 in
which no ladder candidate fits: the forced fallback produces 30 raw bytes
(40 base64 characters), so the output batch total 40 exceeds the
ceiling 10 — the claim that the output total never exceeds the ceiling is
false. -/
theorem C1_budget_counterexample :
    ¬((totalSize [(⟨List.replicate 20 'x', "image/png"⟩ : ImageEntry)] :
        Int) ≤ 10) ∧
    main testCodec [⟨List.replicate 20 'x', "image/png"⟩] 10 =
      .ok [⟨b64encode (List.replicate 30 0), "image/jpeg"⟩] ∧
    ¬((totalSize [(⟨b64encode (List.replicate 30 0), "image/jpeg"⟩ :
        ImageEntry)] : Int) ≤ 10) :=
  ⟨by decide, rfl, by decide⟩

/-- C1 (amended): on an over-budget batch, each output image is either the
unchanged input (already within the allowance), a ladder hit whose raw
encoded length is within the per-image raw target, or the forced-fallback
encoding, which carries no size guarantee — so the per-image budget holds
only up to the fallback exception and the output total may exceed the
ceiling. -/
theorem C1_per_image_budget (c : Codec) (images : List ImageEntry)
    (maxTotal : Int) (out : List ImageEntry)
    (hover : ¬((totalSize images : Int) ≤ maxTotal))
    (h : main c images maxTotal = .ok out) :
    ∀ i (hi : i < images.length) (ho : i < out.length),
      (out.get ⟨i, ho⟩ = images.get ⟨i, hi⟩ ∧
        ((images.get ⟨i, hi⟩).data.length : Int) ≤
          perImageTargetB64 maxTotal images.length) ∨
      (∃ raw opened r,
        c.b64decodeFn ((images.get ⟨i, hi⟩).data) = some raw ∧
        c.imageOpen raw = some opened ∧
        firstFit c ((normalize c opened
            ((images.get ⟨i, hi⟩).media_type)).1)
            (perImageTargetBytes (perImageTargetB64 maxTotal images.length))
            (candidates ((normalize c opened
                ((images.get ⟨i, hi⟩).media_type)).1).width
              ((normalize c opened
                ((images.get ⟨i, hi⟩).media_type)).1).height) = some r ∧
        (r.length : Int) ≤
          perImageTargetBytes (perImageTargetB64 maxTotal images.length) ∧
        out.get ⟨i, ho⟩ = ⟨b64encode r, "image/jpeg"⟩) ∨
      (∃ raw opened,
        c.b64decodeFn ((images.get ⟨i, hi⟩).data) = some raw ∧
        c.imageOpen raw = some opened ∧
        firstFit c ((normalize c opened
            ((images.get ⟨i, hi⟩).media_type)).1)
            (perImageTargetBytes (perImageTargetB64 maxTotal images.length))
            (candidates ((normalize c opened
                ((images.get ⟨i, hi⟩).media_type)).1).width
              ((normalize c opened
                ((images.get ⟨i, hi⟩).media_type)).1).height) = none ∧
        out.get ⟨i, ho⟩ = ⟨b64encode (fallbackEncode c
            ((normalize c opened ((images.get ⟨i, hi⟩).media_type)).1)),
          "image/jpeg"⟩) := by
  unfold main at h
  rw [if_neg hover] at h
  by_cases hz : images.length = 0
  · rw [if_pos hz] at h
    exact absurd h (by simp)
  · rw [if_neg hz] at h
    obtain ⟨hlen, hptr⟩ := processImages_spec _ _ _ _ out h
    intro i hi ho
    have hone := hptr i hi ho
    unfold processOne at hone
    by_cases hfit : (((images.get ⟨i, hi⟩).data.length : Int) ≤
        perImageTargetB64 maxTotal images.length)
    · rw [if_pos hfit] at hone
      simp only [Except.ok.injEq] at hone
      exact Or.inl ⟨hone.symm, hfit⟩
    · rw [if_neg hfit] at hone
      cases hdec : c.b64decodeFn ((images.get ⟨i, hi⟩).data) with
      | none =>
          rw [hdec] at hone
          exact absurd hone (by simp)
      | some raw =>
          rw [hdec] at hone
          dsimp only at hone
          cases hopen : c.imageOpen raw with
          | none =>
              unfold compress_image at hone
              rw [hopen] at hone
              exact absurd hone (by simp)
          | some opened =>
              rw [compress_image_eq c raw
                ((images.get ⟨i, hi⟩).media_type)
                (perImageTargetBytes (perImageTargetB64 maxTotal
                  images.length)) opened hopen] at hone
              cases hff : firstFit c ((normalize c opened
                  ((images.get ⟨i, hi⟩).media_type)).1)
                  (perImageTargetBytes (perImageTargetB64 maxTotal
                    images.length))
                  (candidates ((normalize c opened
                      ((images.get ⟨i, hi⟩).media_type)).1).width
                    ((normalize c opened
                      ((images.get ⟨i, hi⟩).media_type)).1).height) with
              | some r =>
                  rw [hff] at hone
                  dsimp only at hone
                  simp only [Except.ok.injEq] at hone
                  exact Or.inr (Or.inl ⟨raw, opened, r, rfl, hopen, hff,
                    firstFit_fits c _ _ _ r hff, hone.symm⟩)
              | none =>
                  rw [hff] at hone
                  dsimp only at hone
                  simp only [Except.ok.injEq] at hone
                  exact Or.inr (Or.inr ⟨raw, opened, rfl, hopen, hff,
                    hone.symm⟩)

theorem C1_per_image_budget_witness :
    ¬((totalSize ceBatch : Int) ≤ 10) ∧
    ∀ i (hi : i < ceBatch.length) (ho : i < ceOutBatch.length),
      (ceOutBatch.get ⟨i, ho⟩ = ceBatch.get ⟨i, hi⟩ ∧
        ((ceBatch.get ⟨i, hi⟩).data.length : Int) ≤
          perImageTargetB64 10 ceBatch.length) ∨
      (∃ raw opened r,
        testCodec.b64decodeFn ((ceBatch.get ⟨i, hi⟩).data) = some raw ∧
        testCodec.imageOpen raw = some opened ∧
        firstFit testCodec ((normalize testCodec opened
            ((ceBatch.get ⟨i, hi⟩).media_type)).1)
            (perImageTargetBytes (perImageTargetB64 10 ceBatch.length))
            (candidates ((normalize testCodec opened
                ((ceBatch.get ⟨i, hi⟩).media_type)).1).width
              ((normalize testCodec opened
                ((ceBatch.get ⟨i, hi⟩).media_type)).1).height) = some r ∧
        (r.length : Int) ≤
          perImageTargetBytes (perImageTargetB64 10 ceBatch.length) ∧
        ceOutBatch.get ⟨i, ho⟩ = ⟨b64encode r, "image/jpeg"⟩) ∨
      (∃ raw opened,
        testCodec.b64decodeFn ((ceBatch.get ⟨i, hi⟩).data) = some raw ∧
        testCodec.imageOpen raw = some opened ∧
        firstFit testCodec ((normalize testCodec opened
            ((ceBatch.get ⟨i, hi⟩).media_type)).1)
            (perImageTargetBytes (perImageTargetB64 10 ceBatch.length))
            (candidates ((normalize testCodec opened
                ((ceBatch.get ⟨i, hi⟩).media_type)).1).width
              ((normalize testCodec opened
                ((ceBatch.get ⟨i, hi⟩).media_type)).1).height) = none ∧
        ceOutBatch.get ⟨i, ho⟩ = ⟨b64encode (fallbackEncode testCodec
            ((normalize testCodec opened
              ((ceBatch.get ⟨i, hi⟩).media_type)).1)),
          "image/jpeg"⟩) :=
  ⟨by decide,
    C1_per_image_budget testCodec ceBatch 10 ceOutBatch (by decide) (by rfl)⟩

/-- C8 (counterexample): a request whose ceiling is 0 (non-positive) is not
rejected: the one-image batch is processed normally and an output batch is
produced, with no configuration error. -/
theorem C8_no_rejection_counterexample :
    (0 : Int) ≤ 0 ∧
    main testCodec [⟨['x'], "image/png"⟩] 0 =
      .ok [⟨b64encode (List.replicate 30 0), "image/jpeg"⟩] :=
  ⟨le_refl 0, rfl⟩

/-- C8 (amended): the script performs no ceiling validation.  A
non-positive ceiling is accepted: an over-budget batch proceeds to the
per-image loop with a non-positive allowance, so every image with
nonempty data is scheduled for recompression; no configuration error
exists in the program. -/
theorem C8_no_validation (c : Codec) (images : List ImageEntry)
    (maxTotal : Int) (hneg : maxTotal ≤ 0) (hne : images.length ≠ 0)
    (hover : ¬((totalSize images : Int) ≤ maxTotal)) :
    main c images maxTotal =
      processImages c (perImageTargetB64 maxTotal images.length)
        (perImageTargetBytes (perImageTargetB64 maxTotal images.length))
        images ∧
    perImageTargetB64 maxTotal images.length ≤ 0 ∧
    ∀ img ∈ images, 0 < img.data.length →
      ¬((img.data.length : Int) ≤
        perImageTargetB64 maxTotal images.length) := by
  have ha : perImageTargetB64 maxTotal images.length ≤ 0 :=
    tdiv_nonpos_of_nonpos (by omega) (by omega)
  refine ⟨main_over c images maxTotal hover hne, ha, ?_⟩
  intro img _ hlen
  omega

theorem C8_no_validation_witness :
    ((0 : Int) ≤ 0) ∧
    perImageTargetB64 0
      ([(⟨['x'], "image/png"⟩ : ImageEntry)]).length ≤ 0 :=
  ⟨le_refl 0,
    (C8_no_validation testCodec [⟨['x'], "image/png"⟩] 0 (le_refl 0)
      (by decide) (by decide)).2.1⟩

end CompressImages
